import Mathlib

/-!
Verification of the client-side aggregation and derivation layer of the
dcgpu-lab-monitoring dashboard.

The development shallowly embeds three derivation routines:

* the capacity card helpers (`sumForRow`, `getFieldValue`, the CSV export
  rows) from `frontend/components/power-capacity-card.tsx`;
* the monthly comparison analysis (`calculateMedian`,
  `calculateSensorAverages`, `runDH3TempComparison`) from
  `frontend/app/macros/page.tsx`;
* the time-series grouping effects of `PowerChart` and `TemperatureChart`.

JavaScript numbers are modelled as rationals; where NaN propagation is
relevant (dynamic field reads on capacity rows, the unguarded
`sum += entry.reading` in the sensor averaging) an explicit three-valued
model (`JSField`) with NaN-propagating arithmetic (`JSNum`) is used.

The file is organised as definitions first (all embeddings and the sample
inputs used by witnesses), then the theorems.
-/

namespace DCGPU

/-! ## Definitions: capacity card (power-capacity-card.tsx) -/

/-- A value read off a JavaScript object field: a finite number (modelled as
a rational), the floating-point NaN, or an absent / non-numeric value
(the `typeof value === 'number'` test fails on the latter). -/
inductive JSField where
  | num (q : ℚ)
  | nan
  | absent
deriving DecidableEq

/-- The coercion applied by the capacity helpers:
`typeof value === 'number' && !Number.isNaN(value) ? value : 0`. -/
def numOrZero : JSField → ℚ
  | .num q => q
  | .nan => 0
  | .absent => 0

/-- The five data-hall zones (`dhKeys` in the source). -/
inductive Zone where
  | dh1 | dh2 | dh3 | dh4 | dh5
deriving DecidableEq

/-- The field suffixes of a capacity row. -/
inductive CapField where
  | planned | live | max | available
deriving DecidableEq

/-- The zone list `['dh1','dh2','dh3','dh4','dh5']` iterated by `sumForRow`. -/
def dhKeys : List Zone := [.dh1, .dh2, .dh3, .dh4, .dh5]

/-- The string key of a zone, as used in the dynamic `row[`${dh}_${suffix}`]`
lookup. -/
def zoneKey : Zone → String
  | .dh1 => "dh1"
  | .dh2 => "dh2"
  | .dh3 => "dh3"
  | .dh4 => "dh4"
  | .dh5 => "dh5"

/-- One `PowerCapacityData` row.  The twenty `{zone}_{field}` numeric fields
are modelled as a function from zone and field suffix to a `JSField`, which
captures the dynamic string-keyed lookup of the source. -/
structure CapacityRow where
  month : String
  get : Zone → CapField → JSField
  auto_saved : Bool
  saved_date : Option String

/-- Embedding of `sumForRow`: reduce over `dhKeys`, adding the field value
when it is a real number and `0` otherwise. -/
def sumForRow (row : CapacityRow) (fld : CapField) : ℚ :=
  dhKeys.foldl (fun sum dh => sum + numOrZero (row.get dh fld)) 0

/-- Resolution of the dynamic `row[`${siteKey}_${suffix}`]` lookup: an
unknown site key reads an absent property. -/
def parseZone (s : String) : Option Zone :=
  if s = "dh1" then some .dh1
  else if s = "dh2" then some .dh2
  else if s = "dh3" then some .dh3
  else if s = "dh4" then some .dh4
  else if s = "dh5" then some .dh5
  else none

/-- Embedding of `getFieldValue`: the synthetic `'total'` key sums across
zones, otherwise the dynamically looked-up field is coerced by the
`typeof`/`isNaN` guard. -/
def getFieldValue (row : CapacityRow) (siteKey : String) (fld : CapField) : ℚ :=
  if siteKey = "total" then sumForRow row fld
  else
    match parseZone siteKey with
    | some z => numOrZero (row.get z fld)
    | none => 0

/-! ## Definitions: CSV export (downloadHistoryCSV) -/

/-- The character for a single decimal digit. -/
def digitChar (d : ℕ) : Char := Char.ofNat (48 + d)

/-- Decimal digit characters of a natural number, most significant first;
the fuel argument bounds the recursion depth. -/
def natChars : ℕ → ℕ → List Char
  | 0, _ => []
  | fuel + 1, n => if n = 0 then [] else natChars fuel (n / 10) ++ [digitChar (n % 10)]

/-- Decimal rendering of a natural number. -/
def natStr (n : ℕ) : String := if n = 0 then "0" else String.mk (natChars (n + 1) n)

/-- Embedding of `Number.prototype.toFixed(2)`: round `|q| * 100` to the
nearest integer (ties away from zero), then print integer part, a dot and a
two-digit fraction, with the sign in front. -/
def toFixed2 (q : ℚ) : String :=
  let sgn := if q < 0 then "-" else ""
  let n : ℕ := ⌊|q| * 100 + 1 / 2⌋.toNat
  sgn ++ natStr (n / 100) ++ "." ++ String.mk [digitChar (n / 10 % 10), digitChar (n % 10)]

/-- Rendering of one numeric CSV cell, `(field ?? 0).toFixed(2)`: the
nullish coalescing replaces an absent value by `0`, while a NaN survives it
and prints as `"NaN"`. -/
def fixedCell : JSField → String
  | .num q => toFixed2 q
  | .nan => "NaN"
  | .absent => toFixed2 0

/-- One data row of the CSV produced by `downloadHistoryCSV`: month, the
twenty per-zone cells, the four computed totals, the auto-saved flag and
the saved date. -/
def historyCSVRow (row : CapacityRow) : List String :=
  [row.month] ++
    (dhKeys.flatMap fun dh =>
      [fixedCell (row.get dh .planned), fixedCell (row.get dh .live),
        fixedCell (row.get dh .max), fixedCell (row.get dh .available)]) ++
    [toFixed2 (sumForRow row .planned), toFixed2 (sumForRow row .live),
      toFixed2 (sumForRow row .max), toFixed2 (sumForRow row .available)] ++
    [if row.auto_saved then "Yes" else "No", row.saved_date.getD ""]

/-- The data rows of the CSV export (`historyData.map(row => ...)`). -/
def historyCSVRows (history : List CapacityRow) : List (List String) :=
  history.map historyCSVRow

/-- A string consists of an integer part without a dot, a dot, and exactly
two decimal digit characters. -/
def TwoDecimals (s : String) : Prop :=
  ∃ intPart d₁ d₂, s = intPart ++ "." ++ String.mk [d₁, d₂] ∧
    d₁.isDigit = true ∧ d₂.isDigit = true ∧ '.' ∉ intPart.data

/-- Position of a zone in the fixed CSV header order. -/
def zoneIdx : Zone → ℕ
  | .dh1 => 0
  | .dh2 => 1
  | .dh3 => 2
  | .dh4 => 3
  | .dh5 => 4

/-- Position of a field suffix in the fixed CSV header order. -/
def fldIdx : CapField → ℕ
  | .planned => 0
  | .live => 1
  | .max => 2
  | .available => 3

/-- Column index of zone `z`, field `fld` in a CSV data row. -/
def cellIndex (z : Zone) (fld : CapField) : ℕ := 1 + 4 * zoneIdx z + fldIdx fld

/-- A sample all-numeric capacity row, used to witness the CSV theorem. -/
def csvSampleRow : CapacityRow :=
  { month := "2024-01"
    get := fun _ _ => .num 1
    auto_saved := true
    saved_date := none }

/-! ## Definitions: monthly comparison analysis (macros/page.tsx)

The analysis runs on `Date` values built from local calendar fields.  An
instant is modelled as the absolute calendar month containing it
(`year * 12 + monthIndex`) together with the millisecond offset from the
start of that month; `Date` comparison is lexicographic in this
representation.  The civil month-length rules give the offset of the
`monthEnd` boundary. -/

/-- An instant: absolute calendar month plus millisecond offset into it. -/
structure Instant where
  month : ℤ
  ms : ℤ
deriving DecidableEq

/-- Lexicographic comparison of instants (the order of the underlying
`Date` values). -/
def instLE (a b : Instant) : Prop :=
  a.month < b.month ∨ (a.month = b.month ∧ a.ms ≤ b.ms)

instance : DecidableRel instLE := fun a b => by
  unfold instLE; infer_instance

/-- Gregorian leap-year rule. -/
def isLeapYear (y : ℤ) : Bool :=
  (y % 4 == 0 && y % 100 != 0) || y % 400 == 0

/-- Number of days of an absolute calendar month. -/
def monthDays (m : ℤ) : ℕ :=
  let y := m.fdiv 12
  let mm := m.fmod 12
  if mm = 1 then (if isLeapYear y then 29 else 28)
  else if mm = 3 ∨ mm = 5 ∨ mm = 8 ∨ mm = 10 then 30
  else 31

/-- Length of an absolute calendar month in milliseconds. -/
def monthMs (m : ℤ) : ℤ := (monthDays m : ℤ) * 86400000

/-- `new Date(y, m, 1)`: the first instant of month `m`. -/
def monthStart (m : ℤ) : Instant := ⟨m, 0⟩

/-- `new Date(y, m + 1, 0, 23, 59, 59)`: 23:59:59.000 of the last day of
month `m`, i.e. one second before the next month starts. -/
def monthEnd (m : ℤ) : Instant := ⟨m, monthMs m - 1000⟩

/-- The filter predicate `entryDate >= monthStart && entryDate <= monthEnd`. -/
def inMonth (m : ℤ) (t : Instant) : Prop :=
  instLE (monthStart m) t ∧ instLE t (monthEnd m)

instance (m : ℤ) (t : Instant) : Decidable (inMonth m t) := by
  unfold inMonth; infer_instance

/-- One temperature sample as consumed by the analysis (`created`,
`location`, `reading`); the location is optional because the source
guards it with optional chaining. -/
structure Reading where
  created : Instant
  location : Option String
  reading : ℚ
deriving DecidableEq

/-- The per-month filter `allData.filter(entry => ... >= monthStart && ... <= monthEnd)`. -/
def monthData (allData : List Reading) (m : ℤ) : List Reading :=
  allData.filter fun e => decide (inMonth m e.created)

/-- Embedding of `String.prototype.endsWith`. -/
def strEndsWith (s pat : String) : Bool := List.isSuffixOf pat.data s.data

/-- `entry.location?.endsWith('-up')`: an absent location is falsy. -/
def endsUp : Option String → Bool
  | some s => strEndsWith s "-up"
  | none => false

/-- `entry.location?.endsWith('-down')`. -/
def endsDown : Option String → Bool
  | some s => strEndsWith s "-down"
  | none => false

/-- The hot branch of the partition loop: entries whose location ends in
`-up`, in input order. -/
def hotOf (rs : List Reading) : List Reading := rs.filter fun e => endsUp e.location

/-- The cold branch (the `else if`): entries whose location does not end in
`-up` but ends in `-down`, in input order. -/
def coldOf (rs : List Reading) : List Reading :=
  rs.filter fun e => !endsUp e.location && endsDown e.location

/-- Embedding of `calculateMedian`: sort ascending, then pick the middle
value (odd count) or the mean of the two middle values (even count);
empty input gives 0. -/
def calculateMedian (values : List ℚ) : ℚ :=
  if values.length = 0 then 0
  else
    let sorted := List.insertionSort (· ≤ ·) values
    let mid := sorted.length / 2
    if sorted.length % 2 = 0 then (sorted.getD (mid - 1) 0 + sorted.getD mid 0) / 2
    else sorted.getD mid 0

/-- First-encounter deduplication: the key order produced by JavaScript
object-key insertion and by `[...new Set(xs)]`. -/
def firstSeenKeys {κ : Type} [DecidableEq κ] (l : List κ) : List κ :=
  l.foldl (fun acc k => if k ∈ acc then acc else acc ++ [k]) []

/-- `[...new Set(data.map(d => d.location))]`. -/
def distinctLocs (rs : List Reading) : List (Option String) :=
  firstSeenKeys (rs.map (·.location))

/-- The per-location accumulator of `calculateSensorAverages`. -/
structure SensorAcc where
  sum : ℚ
  count : ℕ
  readings : List ℚ
deriving DecidableEq

/-- One step of the grouping loop of `calculateSensorAverages`: update the
existing entry for the location in place, or append a fresh one. -/
def updateGroup : List (Option String × SensorAcc) → Option String → ℚ →
    List (Option String × SensorAcc)
  | [], loc, v => [(loc, ⟨v, 1, [v]⟩)]
  | (k, a) :: rest, loc, v =>
    if k = loc then (k, ⟨a.sum + v, a.count + 1, a.readings ++ [v]⟩) :: rest
    else (k, a) :: updateGroup rest loc v

/-- The `grouped` object of `calculateSensorAverages`, with keys in
first-encounter order. -/
def groupByLocation (data : List Reading) : List (Option String × SensorAcc) :=
  data.foldl (fun g e => updateGroup g e.location e.reading) []

/-- The `averages` object of `calculateSensorAverages`:
`grouped[location].sum / grouped[location].count` per key. -/
def sensorAverages (data : List Reading) : List (Option String × ℚ) :=
  (groupByLocation data).map fun p => (p.1, p.2.sum / (p.2.count : ℚ))

/-- `list.reduce((a, b) => a + b, 0)`. -/
def listSum (l : List ℚ) : ℚ := l.foldl (· + ·) 0

/-- `Math.max(...l)` on a non-empty spread; the source guards the empty
case separately. -/
def maxOf : List ℚ → ℚ
  | [] => 0
  | x :: xs => xs.foldl max x

/-- `Math.min(...l)` on a non-empty spread. -/
def minOf : List ℚ → ℚ
  | [] => 0
  | x :: xs => xs.foldl min x

/-- One `MonthlyStat` record pushed by `runDH3TempComparison`; the month
label is kept as the absolute month index. -/
structure MonthlyStat where
  month : ℤ
  hotData : List Reading
  coldData : List Reading
  hotSensors : List (Option String)
  coldSensors : List (Option String)
  overallHotAvg : ℚ
  overallColdAvg : ℚ
  hotPeak : ℚ
  hotBottom : ℚ
  coldPeak : ℚ
  coldBottom : ℚ
  hotMedian : ℚ
  coldMedian : ℚ
  totalReadings : ℕ
deriving DecidableEq

/-- The loop body of `runDH3TempComparison` for one month offset: filter
the month, partition hot/cold, and derive the group statistics. -/
def analyzeMonth (allData : List Reading) (m : ℤ) : MonthlyStat :=
  let md := monthData allData m
  let hotData := hotOf md
  let coldData := coldOf md
  let hotAvgValues := (sensorAverages hotData).map Prod.snd
  let coldAvgValues := (sensorAverages coldData).map Prod.snd
  let allHot := hotData.map (·.reading)
  let allCold := coldData.map (·.reading)
  { month := m
    hotData := hotData
    coldData := coldData
    hotSensors := distinctLocs hotData
    coldSensors := distinctLocs coldData
    overallHotAvg :=
      if 0 < hotAvgValues.length then listSum hotAvgValues / (hotAvgValues.length : ℚ) else 0
    overallColdAvg :=
      if 0 < coldAvgValues.length then listSum coldAvgValues / (coldAvgValues.length : ℚ) else 0
    hotPeak := if 0 < allHot.length then maxOf allHot else 0
    hotBottom := if 0 < allHot.length then minOf allHot else 0
    coldPeak := if 0 < allCold.length then maxOf allCold else 0
    coldBottom := if 0 < allCold.length then minOf allCold else 0
    hotMedian := calculateMedian allHot
    coldMedian := calculateMedian allCold
    totalReadings := md.length }

/-- Embedding of `runDH3TempComparison`: one record per offset `i` from 0
to N−1 for the month `nowMonth − i`, accumulated newest-first and reversed
before being returned. -/
def runDH3TempComparison (nowMonth : ℤ) (allData : List Reading) (months : ℕ) :
    List MonthlyStat :=
  ((List.range months).map fun i : ℕ => analyzeMonth allData (nowMonth - (i : ℤ))).reverse

/-! ## Definitions: NaN-faithful sensor averaging

`calculateSensorAverages` runs `grouped[location].sum += entry.reading`
with no numeric guard, so a missing or non-numeric reading propagates NaN.
This variant models that arithmetic exactly. -/

/-- A JavaScript arithmetic value: a finite number or NaN. -/
inductive JSNum where
  | num (q : ℚ)
  | nan
deriving DecidableEq

/-- JavaScript addition: NaN absorbs. -/
def jsAdd : JSNum → JSNum → JSNum
  | .num a, .num b => .num (a + b)
  | _, _ => .nan

/-- JavaScript division as exercised by the source: NaN absorbs; the
divisor is a positive count in every call site, so the zero-divisor branch
is never reached. -/
def jsDiv : JSNum → JSNum → JSNum
  | .num a, .num b => if b = 0 then .nan else .num (a / b)
  | _, _ => .nan

/-- Coercion of a field value into arithmetic: `undefined` (and any
non-numeric operand) behaves as NaN under `+`. -/
def toJSNum : JSField → JSNum
  | .num q => .num q
  | .nan => .nan
  | .absent => .nan

/-- A sample whose `reading` may be missing or non-numeric. -/
structure ReadingJS where
  created : Instant
  location : Option String
  reading : JSField
deriving DecidableEq

/-- The per-location accumulator with JS arithmetic. -/
structure SensorAccJS where
  sum : JSNum
  count : ℕ
  readings : List JSField
deriving DecidableEq

/-- The grouping step of `calculateSensorAverages` with JS arithmetic:
`sum` starts at 0 and `sum += entry.reading` is unguarded. -/
def updateGroupJS : List (Option String × SensorAccJS) → Option String → JSField →
    List (Option String × SensorAccJS)
  | [], loc, v => [(loc, ⟨jsAdd (.num 0) (toJSNum v), 1, [v]⟩)]
  | (k, a) :: rest, loc, v =>
    if k = loc then (k, ⟨jsAdd a.sum (toJSNum v), a.count + 1, a.readings ++ [v]⟩) :: rest
    else (k, a) :: updateGroupJS rest loc v

/-- The `grouped` object with JS arithmetic. -/
def groupByLocationJS (data : List ReadingJS) : List (Option String × SensorAccJS) :=
  data.foldl (fun g e => updateGroupJS g e.location e.reading) []

/-- The `averages` object with JS arithmetic. -/
def sensorAveragesJS (data : List ReadingJS) : List (Option String × JSNum) :=
  (groupByLocationJS data).map fun p => (p.1, jsDiv p.2.sum (.num (p.2.count : ℚ)))

/-- The overall-average step
`values.length > 0 ? values.reduce((a,b) => a+b, 0) / values.length : 0`
with JS arithmetic. -/
def overallAvgJS (avgs : List JSNum) : JSNum :=
  if 0 < avgs.length then jsDiv (avgs.foldl jsAdd (.num 0)) (.num (avgs.length : ℚ))
  else .num 0

/-! ## Definitions: time-series grouping (PowerChart / TemperatureChart) -/

/-- A chart bucket: a representative key (`created`) plus the per-location
values assigned onto the bucket object, in key insertion order. -/
structure Bucket (κ : Type) where
  created : κ
  vals : List (String × ℚ)
deriving DecidableEq

/-- Property assignment `gp[location] = reading`: overwrite in place or
append a fresh key. -/
def setVal : List (String × ℚ) → String → ℚ → List (String × ℚ)
  | [], k, v => [(k, v)]
  | (k', v') :: rest, k, v =>
    if k' = k then (k', v) :: rest else (k', v') :: setVal rest k v

/-- Property read `gp[location]` (`undefined` as `none`). -/
def lookupVal : List (String × ℚ) → String → Option ℚ
  | [], _ => none
  | (k', v') :: rest, k => if k' = k then some v' else lookupVal rest k

/-- One step of the grouping loop shared by both charts: find the bucket
with the given key or push a new one, then assign the location's value. -/
def addToBuckets {κ : Type} [DecidableEq κ] :
    List (Bucket κ) → κ → String → ℚ → List (Bucket κ)
  | [], t, loc, v => [⟨t, [(loc, v)]⟩]
  | b :: bs, t, loc, v =>
    if b.created = t then ⟨b.created, setVal b.vals loc v⟩ :: bs
    else b :: addToBuckets bs t loc v

/-- The grouping loop over a stream of (key, location, value) events. -/
def groupEvents {κ : Type} [DecidableEq κ] (evs : List (κ × String × ℚ)) : List (Bucket κ) :=
  evs.foldl (fun bs e => addToBuckets bs e.1 e.2.1 e.2.2) []

/-- One power sample; `created` is compared by exact (string) equality in
the power chart. -/
structure PowerReading where
  created : String
  location : String
  reading : ℚ
deriving DecidableEq

/-- The `PowerChart` grouping effect: buckets keyed by the exact `created`
value, in encounter order, `bucket[location] = reading`. -/
def groupPower (data : List PowerReading) : List (Bucket String) :=
  groupEvents (data.map fun e => (e.created, e.location, e.reading))

/-- One temperature sample; `created` is an epoch-millisecond instant. -/
structure TempReading where
  created : ℤ
  location : String
  reading : ℚ
deriving DecidableEq

/-- `normalizeTime`: `d.setSeconds(0, 0)`, i.e. truncation to the start of
the minute containing the instant. -/
def normalizeTime (t : ℤ) : ℤ := 60000 * (t.fdiv 60000)

/-- The `TemperatureChart` grouping pass: buckets keyed by the
minute-normalized timestamp, in encounter order. -/
def groupTemp (data : List TempReading) : List (Bucket ℤ) :=
  groupEvents (data.map fun e => (normalizeTime e.created, e.location, e.reading))

/-- The sort comparator `(a, b) => time(a) - time(b)`. -/
def bucketLE (a b : Bucket ℤ) : Prop := a.created ≤ b.created

instance : DecidableRel bucketLE := fun a b =>
  inferInstanceAs (Decidable (a.created ≤ b.created))

instance : IsTotal (Bucket ℤ) bucketLE :=
  ⟨fun a b => Int.le_total a.created b.created⟩

instance : IsTrans (Bucket ℤ) bucketLE :=
  ⟨fun _ _ _ h₁ h₂ => le_trans h₁ h₂⟩

/-- `grouped.sort(...)`: ascending by instant. -/
def sortTempBuckets (bs : List (Bucket ℤ)) : List (Bucket ℤ) :=
  List.insertionSort bucketLE bs

/-- The `cfg` object: every location seen anywhere in the input, in
first-encounter order. -/
def cfgLocs (data : List TempReading) : List String :=
  firstSeenKeys (data.map (·.location))

/-- The values of one location over the buckets whose instant lies in the
trailing window `[t − 30 min, t]` (the source filter uses `>= windowStart`,
so the left endpoint is included). -/
def windowVals (sorted : List (Bucket ℤ)) (t : ℤ) (loc : String) : List ℚ :=
  (sorted.filter fun p => decide (t - 1800000 ≤ p.created) && decide (p.created ≤ t)).filterMap
    fun p => lookupVal p.vals loc

/-- The second pass for one bucket: for each configured location, average
its window values, omitting the location when the window is empty. -/
def averagePoint (sorted : List (Bucket ℤ)) (cfg : List String) (b : Bucket ℤ) : Bucket ℤ :=
  ⟨b.created,
    cfg.foldl (fun acc loc =>
      let vals := windowVals sorted b.created loc
      if 0 < vals.length then acc ++ [(loc, listSum vals / (vals.length : ℚ))] else acc) []⟩

/-- The full temperature-mode derivation: group, sort, then the trailing
moving average per configured location. -/
def temperatureSeries (data : List TempReading) : List (Bucket ℤ) :=
  let sorted := sortTempBuckets (groupTemp data)
  sorted.map (averagePoint sorted (cfgLocs data))

/-! ## Definitions: spec-side notions and sample inputs -/

/-- Spec-side arithmetic mean (division by zero gives 0 in `ℚ`, matching
the source's zero default for empty groups). -/
def specMean (l : List ℚ) : ℚ := l.sum / (l.length : ℚ)

/-- Spec-side: the readings of one location within a list. -/
def readingsAt (rs : List Reading) (loc : Option String) : List ℚ :=
  (rs.filter fun e => decide (e.location = loc)).map (·.reading)

/-- Absolute month index of March 2024 (0-based month 2). -/
def march2024 : ℤ := 2024 * 12 + 2

/-- `{created: "2024-03-01T00:00:00Z", location: "dh3-up", reading: 30}`. -/
def exReading1 : Reading := ⟨⟨march2024, 0⟩, some "dh3-up", 30⟩

/-- `{created: "2024-03-02T00:00:00Z", location: "dh3-up", reading: 50}`. -/
def exReading2 : Reading := ⟨⟨march2024, 86400000⟩, some "dh3-up", 50⟩

/-- A reading during March 2024 at location `rack1-up`. -/
def rackReading : Reading := ⟨⟨march2024, 0⟩, some "rack1-up", 1⟩

/-- A sample whose `reading` field is missing. -/
def badReading : ReadingJS := ⟨⟨march2024, 0⟩, some "dh3-up", .absent⟩

/-- Two temperature samples for one location exactly 30 minutes apart:
the window-boundary input. -/
def tempCx : List TempReading := [⟨0, "a", 0⟩, ⟨1800000, "a", 10⟩]

/-- A sample power stream with a duplicate (timestamp, location) pair. -/
def powerSample : List PowerReading := [⟨"t1", "l1", 1⟩, ⟨"t1", "l1", 2⟩, ⟨"t2", "l2", 3⟩]

/-! ## Theorems -/

/-- Helper: the `reduce` in `sumForRow` unfolds to the five-term sum. -/
theorem sumForRow_eq (row : CapacityRow) (fld : CapField) :
    sumForRow row fld =
      numOrZero (row.get .dh1 fld) + numOrZero (row.get .dh2 fld) +
        numOrZero (row.get .dh3 fld) + numOrZero (row.get .dh4 fld) +
        numOrZero (row.get .dh5 fld) := by
  simp [sumForRow, dhKeys]

/-- C5: `sumForRow` equals the arithmetic sum of the five zone values with
absent/non-numeric/NaN counted as 0, `getFieldValue` at `'total'` equals
`sumForRow`, and `getFieldValue` at a real zone key returns that zone's
coerced raw field. -/
theorem capacity_sum_spec (row : CapacityRow) (fld : CapField) :
    sumForRow row fld =
      numOrZero (row.get .dh1 fld) + numOrZero (row.get .dh2 fld) +
        numOrZero (row.get .dh3 fld) + numOrZero (row.get .dh4 fld) +
        numOrZero (row.get .dh5 fld) ∧
    getFieldValue row "total" fld = sumForRow row fld ∧
    ∀ z : Zone, getFieldValue row (zoneKey z) fld = numOrZero (row.get z fld) := by
  refine ⟨sumForRow_eq row fld, ?_, ?_⟩
  · simp [getFieldValue]
  · intro z
    cases z <;> simp [getFieldValue, zoneKey, parseZone]

theorem digitChar_isDigit {d : ℕ} (h : d < 10) : (digitChar d).isDigit = true := by
  interval_cases d <;> decide

theorem digitChar_ne_dot {d : ℕ} (h : d < 10) : digitChar d ≠ '.' := by
  interval_cases d <;> decide

theorem natChars_no_dot (fuel n : ℕ) : '.' ∉ natChars fuel n := by
  induction fuel generalizing n with
  | zero => simp [natChars]
  | succ fuel ih =>
    by_cases h : n = 0
    · simp [natChars, h]
    · simp only [natChars, if_neg h, List.mem_append, List.mem_singleton]
      rintro (hmem | heq)
      · exact ih _ hmem
      · exact digitChar_ne_dot (Nat.mod_lt _ (by norm_num)) heq.symm

theorem natStr_no_dot (n : ℕ) : '.' ∉ (natStr n).data := by
  by_cases h : n = 0
  · simp [natStr, h]
  · simpa [natStr, h] using natChars_no_dot (n + 1) n

theorem toFixed2_twoDecimals (q : ℚ) : TwoDecimals (toFixed2 q) := by
  refine ⟨(if q < 0 then "-" else "") ++ natStr (⌊|q| * 100 + 1 / 2⌋.toNat / 100),
    digitChar (⌊|q| * 100 + 1 / 2⌋.toNat / 10 % 10),
    digitChar (⌊|q| * 100 + 1 / 2⌋.toNat % 10), ?_, ?_, ?_, ?_⟩
  · simp [toFixed2, String.append_assoc]
  · exact digitChar_isDigit (Nat.mod_lt _ (by norm_num))
  · exact digitChar_isDigit (Nat.mod_lt _ (by norm_num))
  · have hd : ((if q < 0 then "-" else "") ++
        natStr (⌊|q| * 100 + 1 / 2⌋.toNat / 100)).data =
        (if q < 0 then "-" else "").data ++ (natStr (⌊|q| * 100 + 1 / 2⌋.toNat / 100)).data := by
      by_cases h : q < 0 <;> simp [h]
    rw [hd]
    intro hmem
    rcases List.mem_append.mp hmem with hmem | hmem
    · by_cases h : q < 0 <;> simp [h] at hmem
    · exact natStr_no_dot _ hmem

/-- A non-NaN field renders as `toFixed2` of its coerced value. -/
theorem fixedCell_eq {f : JSField} (h : f ≠ .nan) :
    fixedCell f = toFixed2 (numOrZero f) := by
  cases f with
  | num q => rfl
  | nan => exact absurd rfl h
  | absent => rfl

/-- C9: the CSV export yields one data row per history record; on rows
whose fields are never NaN, every numeric cell (columns 1–24) is formatted
with exactly two decimal places, each total column is `toFixed2` of the
arithmetic sum of the five zone values of that field, each zone cell is
`toFixed2` of that zone's coerced value, the auto-saved flag renders as
"Yes"/"No", and a missing saved date renders as the empty string. -/
theorem downloadHistoryCSV_spec (history : List CapacityRow)
    (hnum : ∀ row ∈ history, ∀ z fld, row.get z fld ≠ JSField.nan) :
    (historyCSVRows history).length = history.length ∧
    ∀ row ∈ history,
      (historyCSVRow row).length = 27 ∧
      (∀ z fld, (historyCSVRow row).getD (cellIndex z fld) "" =
        toFixed2 (numOrZero (row.get z fld))) ∧
      (∀ fld, (historyCSVRow row).getD (21 + fldIdx fld) "" =
        toFixed2 (numOrZero (row.get .dh1 fld) + numOrZero (row.get .dh2 fld) +
          numOrZero (row.get .dh3 fld) + numOrZero (row.get .dh4 fld) +
          numOrZero (row.get .dh5 fld))) ∧
      (∀ j, 1 ≤ j → j ≤ 24 → TwoDecimals ((historyCSVRow row).getD j "")) ∧
      (historyCSVRow row).getD 25 "" = (if row.auto_saved then "Yes" else "No") ∧
      (row.saved_date = none → (historyCSVRow row).getD 26 "" = "") := by
  refine ⟨by simp [historyCSVRows], ?_⟩
  intro row hrow
  have hc : ∀ z fld, fixedCell (row.get z fld) = toFixed2 (numOrZero (row.get z fld)) :=
    fun z fld => fixedCell_eq (hnum row hrow z fld)
  have hrowEq : historyCSVRow row =
      [row.month,
        toFixed2 (numOrZero (row.get .dh1 .planned)), toFixed2 (numOrZero (row.get .dh1 .live)),
        toFixed2 (numOrZero (row.get .dh1 .max)), toFixed2 (numOrZero (row.get .dh1 .available)),
        toFixed2 (numOrZero (row.get .dh2 .planned)), toFixed2 (numOrZero (row.get .dh2 .live)),
        toFixed2 (numOrZero (row.get .dh2 .max)), toFixed2 (numOrZero (row.get .dh2 .available)),
        toFixed2 (numOrZero (row.get .dh3 .planned)), toFixed2 (numOrZero (row.get .dh3 .live)),
        toFixed2 (numOrZero (row.get .dh3 .max)), toFixed2 (numOrZero (row.get .dh3 .available)),
        toFixed2 (numOrZero (row.get .dh4 .planned)), toFixed2 (numOrZero (row.get .dh4 .live)),
        toFixed2 (numOrZero (row.get .dh4 .max)), toFixed2 (numOrZero (row.get .dh4 .available)),
        toFixed2 (numOrZero (row.get .dh5 .planned)), toFixed2 (numOrZero (row.get .dh5 .live)),
        toFixed2 (numOrZero (row.get .dh5 .max)), toFixed2 (numOrZero (row.get .dh5 .available)),
        toFixed2 (sumForRow row .planned), toFixed2 (sumForRow row .live),
        toFixed2 (sumForRow row .max), toFixed2 (sumForRow row .available),
        if row.auto_saved then "Yes" else "No", row.saved_date.getD ""] := by
    simp [historyCSVRow, dhKeys, hc]
  refine ⟨by rw [hrowEq]; rfl, ?_, ?_, ?_, ?_, ?_⟩
  · intro z fld
    rw [hrowEq]
    cases z <;> cases fld <;> rfl
  · intro fld
    rw [hrowEq]
    cases fld <;> (simp only [sumForRow_eq]; rfl)
  · intro j h1 h24
    rw [hrowEq]
    interval_cases j <;> exact toFixed2_twoDecimals _
  · rw [hrowEq]; rfl
  · intro hnone; rw [hrowEq]; simp [hnone]

/-- Witness for C9 at a concrete one-row history: the NaN-freedom
hypothesis holds and the row count is preserved. -/
theorem downloadHistoryCSV_spec_witness :
    (∀ row ∈ [csvSampleRow], ∀ z fld, row.get z fld ≠ JSField.nan) ∧
    (historyCSVRows [csvSampleRow]).length = [csvSampleRow].length := by
  have hh : ∀ row ∈ [csvSampleRow], ∀ z fld, row.get z fld ≠ JSField.nan := by
    intro row hrow z fld
    rw [List.mem_singleton] at hrow
    subst hrow
    simp [csvSampleRow]
  exact ⟨hh, (downloadHistoryCSV_spec [csvSampleRow] hh).1⟩

/-- C6: the median is the middle element (odd count) or the mean of the
two middle elements (even count) of the ascending sort, 0 on empty input;
median [10,20,30] = 20 and median [10,20,30,40] = 25. -/
theorem calculateMedian_spec :
    calculateMedian [] = 0 ∧
    (∀ (values sorted : List ℚ), values.Perm sorted → sorted.Sorted (· ≤ ·) →
      (values.length % 2 = 0 → values ≠ [] →
        calculateMedian values =
          (sorted.getD (values.length / 2 - 1) 0 + sorted.getD (values.length / 2) 0) / 2) ∧
      (values.length % 2 = 1 →
        calculateMedian values = sorted.getD (values.length / 2) 0)) ∧
    calculateMedian [10, 20, 30] = 20 ∧
    calculateMedian [10, 20, 30, 40] = 25 := by
  refine ⟨rfl, ?_, ?_, ?_⟩
  · intro values sorted hperm hsort
    have hs : List.insertionSort (· ≤ ·) values = sorted :=
      List.eq_of_perm_of_sorted ((List.perm_insertionSort _ values).trans hperm)
        (List.sorted_insertionSort _ values) hsort
    have hlen : sorted.length = values.length := hperm.length_eq.symm
    constructor
    · intro heven hne
      have hne' : values.length ≠ 0 := by simpa using hne
      simp only [calculateMedian, if_neg hne', hs, hlen, heven, if_pos]
    · intro hodd
      have hne' : values.length ≠ 0 := by omega
      have hoddne : ¬values.length % 2 = 0 := by omega
      simp only [calculateMedian, if_neg hne', hs, hlen, if_neg hoddne]
  · norm_num [calculateMedian, List.insertionSort, List.orderedInsert]
  · norm_num [calculateMedian, List.insertionSort, List.orderedInsert]

/-- Witness for C6's general clause at [10, 20, 30] (odd count). -/
theorem calculateMedian_spec_witness :
    (([10, 20, 30] : List ℚ).Perm [10, 20, 30] ∧
      ([(10 : ℚ), 20, 30] : List ℚ).Sorted (· ≤ ·) ∧
      ([10, 20, 30] : List ℚ).length % 2 = 1) ∧
    calculateMedian [10, 20, 30] =
      ([(10 : ℚ), 20, 30] : List ℚ).getD (([10, 20, 30] : List ℚ).length / 2) 0 := by
  have hsort : ([(10 : ℚ), 20, 30] : List ℚ).Sorted (· ≤ ·) := by decide
  refine ⟨⟨List.Perm.refl _, hsort, by norm_num⟩, ?_⟩
  exact (calculateMedian_spec.2.1 [10, 20, 30] [10, 20, 30] (List.Perm.refl _) hsort).2
    (by norm_num)

/-- C1: requesting N ≥ 1 months returns exactly N records; the j-th
returned record (0-based) is the analysis of month `now − (N − 1 − j)`,
so the list covers the N calendar months ending at the current month and
is ordered oldest-to-newest after the final reversal. -/
theorem runDH3TempComparison_order (nowMonth : ℤ) (allData : List Reading) (months : ℕ)
    (hm : 1 ≤ months) :
    (runDH3TempComparison nowMonth allData months).length = months ∧
    ∀ j, j < months →
      (runDH3TempComparison nowMonth allData months)[j]? =
        some (analyzeMonth allData (nowMonth - ((months - 1 - j : ℕ) : ℤ))) := by
  constructor
  · simp [runDH3TempComparison]
  · intro j hj
    have hlen : ((List.range months).map fun i : ℕ =>
        analyzeMonth allData (nowMonth - (i : ℤ))).length = months := by simp
    rw [runDH3TempComparison, List.getElem?_reverse (by omega), hlen]
    rw [List.getElem?_map, List.getElem?_range (by omega)]
    rfl

/-- Witness for C1 at N = 2: two records, oldest first. -/
theorem runDH3TempComparison_order_witness :
    (1 ≤ 2 ∧ (runDH3TempComparison march2024 [] 2).length = 2) ∧
    (runDH3TempComparison march2024 [] 2)[0]? =
      some (analyzeMonth [] (march2024 - ((2 - 1 - 0 : ℕ) : ℤ))) := by
  have h := runDH3TempComparison_order march2024 [] 2 (by norm_num)
  exact ⟨⟨by norm_num, h.1⟩, h.2 0 (by norm_num)⟩

/-- C10: the calendar-month windows of two distinct offsets never both
contain an instant, so a reading is filtered into the month data of at
most one of the requested months. -/
theorem monthWindows_disjoint (nowMonth : ℤ) (i j : ℕ) (t : Instant) (hij : i ≠ j) :
    ¬(inMonth (nowMonth - i) t ∧ inMonth (nowMonth - j) t) ∧
    ∀ (allData : List Reading) (e : Reading),
      ¬(e ∈ monthData allData (nowMonth - i) ∧ e ∈ monthData allData (nowMonth - j)) := by
  have key : ∀ (m : ℤ) (u : Instant), inMonth m u → u.month = m := by
    intro m u hm
    rcases hm with ⟨h₁, h₂⟩
    rcases h₁ with h₁ | ⟨h₁, _⟩ <;> rcases h₂ with h₂ | ⟨h₂, _⟩ <;>
      simp [monthStart, monthEnd] at h₁ h₂ <;> omega
  have hne : (nowMonth - i : ℤ) ≠ (nowMonth - j : ℤ) := by
    intro h
    apply hij
    have : (i : ℤ) = (j : ℤ) := by omega
    exact_mod_cast this
  constructor
  · rintro ⟨h₁, h₂⟩
    exact hne ((key _ _ h₁).symm.trans (key _ _ h₂))
  · rintro allData e ⟨h₁, h₂⟩
    rw [monthData, List.mem_filter] at h₁ h₂
    have k₁ := key _ _ (of_decide_eq_true h₁.2)
    have k₂ := key _ _ (of_decide_eq_true h₂.2)
    exact hne (k₁.symm.trans k₂)

/-- Witness for C10 at offsets 0 and 1. -/
theorem monthWindows_disjoint_witness :
    (0 : ℕ) ≠ 1 ∧
    ¬(inMonth (march2024 - (0 : ℕ)) ⟨march2024, 0⟩ ∧
      inMonth (march2024 - (1 : ℕ)) ⟨march2024, 0⟩) :=
  ⟨by norm_num, (monthWindows_disjoint march2024 0 1 ⟨march2024, 0⟩ (by norm_num)).1⟩

/-- A location cannot end in both `-up` and `-down`. -/
theorem endsUp_not_endsDown {l : Option String} (h : endsUp l = true) :
    endsDown l = false := by
  cases l with
  | none => rfl
  | some s =>
    have h' : "-up".data <:+ s.data := by
      simpa [endsUp, strEndsWith] using h
    by_contra hd
    rw [Bool.not_eq_false] at hd
    have hd' : "-down".data <:+ s.data := by
      simpa [endsDown, strEndsWith] using hd
    rcases List.suffix_or_suffix_of_suffix h' hd' with hc | hc
    · revert hc; decide
    · revert hc; decide

/-- C7: within a month's filtered readings, a location ending in `-up`
goes to the hot group only, one ending in `-down` to the cold group only,
and anything else to neither; in particular `rack1-up` contributes to hot
and never to cold. -/
theorem hotCold_partition (allData : List Reading) (m : ℤ) (e : Reading)
    (he : e ∈ monthData allData m) :
    (analyzeMonth allData m).hotData = hotOf (monthData allData m) ∧
    (analyzeMonth allData m).coldData = coldOf (monthData allData m) ∧
    (endsUp e.location = true →
      e ∈ hotOf (monthData allData m) ∧ e ∉ coldOf (monthData allData m)) ∧
    (endsDown e.location = true →
      e ∈ coldOf (monthData allData m) ∧ e ∉ hotOf (monthData allData m)) ∧
    (endsUp e.location = false → endsDown e.location = false →
      e ∉ hotOf (monthData allData m) ∧ e ∉ coldOf (monthData allData m)) ∧
    (e.location = some "rack1-up" →
      e ∈ hotOf (monthData allData m) ∧ e ∉ coldOf (monthData allData m)) := by
  have hupMem : endsUp e.location = true →
      e ∈ hotOf (monthData allData m) ∧ e ∉ coldOf (monthData allData m) := by
    intro hup
    constructor
    · exact List.mem_filter.mpr ⟨he, hup⟩
    · intro hc
      have := (List.mem_filter.mp hc).2
      simp [hup] at this
  refine ⟨rfl, rfl, hupMem, ?_, ?_, ?_⟩
  · intro hdown
    have hup : endsUp e.location = false := by
      cases hu : endsUp e.location
      · rfl
      · exact absurd hdown (by simp [endsUp_not_endsDown hu])
    constructor
    · exact List.mem_filter.mpr ⟨he, by simp [hup, hdown]⟩
    · intro hc
      have := (List.mem_filter.mp hc).2
      simp [hup] at this
  · intro hup hdown
    constructor
    · intro hc
      have := (List.mem_filter.mp hc).2
      simp [hup] at this
    · intro hc
      have := (List.mem_filter.mp hc).2
      simp [hup, hdown] at this
  · intro hloc
    exact hupMem (by rw [hloc]; decide)

/-- Witness for C7: a `rack1-up` reading in March 2024. -/
theorem hotCold_partition_witness :
    rackReading ∈ monthData [rackReading] march2024 ∧
    (rackReading ∈ hotOf (monthData [rackReading] march2024) ∧
      rackReading ∉ coldOf (monthData [rackReading] march2024)) := by
  have hmem : rackReading ∈ monthData [rackReading] march2024 := by decide
  exact ⟨hmem, (hotCold_partition [rackReading] march2024 rackReading hmem).2.2.2.2.2 rfl⟩

/-- C4 counterexample: a single reading whose `reading` value is missing
is not excluded — the group accumulates `sum = NaN, count = 1` and the
overall group average comes out NaN, contradicting "readings with missing
or non-numeric reading values are excluded from sums and counts" and
"never produces NaN". -/
theorem sensorAverages_nan_cx :
    (groupByLocationJS [badReading]).map (fun p => (p.2.sum, p.2.count)) =
      [(JSNum.nan, 1)] ∧
    overallAvgJS ((sensorAveragesJS [badReading]).map Prod.snd) = JSNum.nan := by
  constructor <;>
    norm_num [groupByLocationJS, updateGroupJS, badReading, toJSNum, jsAdd, jsDiv,
      sensorAveragesJS, overallAvgJS]

/-- C4 amended: no derivation throws and empty input (or an empty group)
yields a well-formed zero-valued result; but missing/non-numeric reading
values are not excluded by the sensor averaging — they propagate NaN into
the affected group's average. -/
theorem derivations_empty_safe (m : ℤ) :
    analyzeMonth [] m = ⟨m, [], [], [], [], 0, 0, 0, 0, 0, 0, 0, 0, 0⟩ ∧
    runDH3TempComparison m [] 0 = [] ∧
    calculateMedian [] = 0 ∧
    historyCSVRows [] = [] ∧
    groupPower [] = [] ∧
    temperatureSeries [] = [] ∧
    sensorAveragesJS [] = [] ∧
    overallAvgJS [] = JSNum.num 0 ∧
    overallAvgJS ((sensorAveragesJS [badReading]).map Prod.snd) = JSNum.nan := by
  refine ⟨rfl, rfl, rfl, rfl, rfl, rfl, rfl, rfl, ?_⟩
  norm_num [groupByLocationJS, updateGroupJS, badReading, toJSNum, jsAdd, jsDiv,
    sensorAveragesJS, overallAvgJS]

/-! ### Characterization of the per-location grouping -/

theorem groupByLocation_append (data : List Reading) (e : Reading) :
    groupByLocation (data ++ [e]) = updateGroup (groupByLocation data) e.location e.reading := by
  simp [groupByLocation, List.foldl_append]

theorem mem_foldl_firstSeen {κ : Type} [DecidableEq κ] (l : List κ) (acc : List κ) (x : κ) :
    x ∈ l.foldl (fun acc k => if k ∈ acc then acc else acc ++ [k]) acc ↔ x ∈ acc ∨ x ∈ l := by
  induction l generalizing acc with
  | nil => simp
  | cons k l ih =>
    rw [List.foldl_cons, ih]
    by_cases hk : k ∈ acc
    · simp only [if_pos hk, List.mem_cons]
      constructor
      · rintro (h | h)
        · exact Or.inl h
        · exact Or.inr (Or.inr h)
      · rintro (h | rfl | h)
        · exact Or.inl h
        · exact Or.inl hk
        · exact Or.inr h
    · simp only [if_neg hk, List.mem_append, List.mem_singleton, List.mem_cons]
      tauto

theorem mem_firstSeenKeys {κ : Type} [DecidableEq κ] (l : List κ) (x : κ) :
    x ∈ firstSeenKeys l ↔ x ∈ l := by
  rw [firstSeenKeys, mem_foldl_firstSeen]
  simp

theorem nodup_foldl_firstSeen {κ : Type} [DecidableEq κ] (l : List κ) (acc : List κ)
    (h : acc.Nodup) :
    (l.foldl (fun acc k => if k ∈ acc then acc else acc ++ [k]) acc).Nodup := by
  induction l generalizing acc with
  | nil => simpa using h
  | cons k l ih =>
    rw [List.foldl_cons]
    by_cases hk : k ∈ acc
    · rw [if_pos hk]; exact ih acc h
    · rw [if_neg hk]
      exact ih _ (by simp [List.nodup_append, h, hk])

theorem nodup_firstSeenKeys {κ : Type} [DecidableEq κ] (l : List κ) :
    (firstSeenKeys l).Nodup :=
  nodup_foldl_firstSeen l [] List.nodup_nil

theorem firstSeenKeys_append {κ : Type} [DecidableEq κ] (l : List κ) (k : κ) :
    firstSeenKeys (l ++ [k]) =
      if k ∈ firstSeenKeys l then firstSeenKeys l else firstSeenKeys l ++ [k] := by
  simp [firstSeenKeys, List.foldl_append]

theorem mem_distinctLocs (data : List Reading) (loc : Option String) :
    loc ∈ distinctLocs data ↔ loc ∈ data.map (·.location) := by
  rw [distinctLocs, mem_firstSeenKeys]

theorem readingsAt_append (data : List Reading) (e : Reading) (loc : Option String) :
    readingsAt (data ++ [e]) loc =
      readingsAt data loc ++ (if e.location = loc then [e.reading] else []) := by
  by_cases h : e.location = loc <;> simp [readingsAt, List.filter_append, h]

theorem readingsAt_of_notMem {data : List Reading} {loc : Option String}
    (h : loc ∉ data.map (·.location)) : readingsAt data loc = [] := by
  rw [readingsAt, List.map_eq_nil_iff, List.filter_eq_nil_iff]
  intro e he
  simp only [decide_eq_true_eq]
  intro heq
  apply h
  rw [← heq]
  exact List.mem_map_of_mem (·.location) he

theorem nodup_distinctLocs (data : List Reading) : (distinctLocs data).Nodup :=
  nodup_firstSeenKeys _

theorem distinctLocs_append_mem {data : List Reading} {e : Reading}
    (h : e.location ∈ distinctLocs data) :
    distinctLocs (data ++ [e]) = distinctLocs data := by
  have h' : e.location ∈ firstSeenKeys (data.map (·.location)) := h
  rw [distinctLocs, List.map_append, List.map_singleton, firstSeenKeys_append, if_pos h']
  rfl

theorem distinctLocs_append_notMem {data : List Reading} {e : Reading}
    (h : e.location ∉ distinctLocs data) :
    distinctLocs (data ++ [e]) = distinctLocs data ++ [e.location] := by
  have h' : e.location ∉ firstSeenKeys (data.map (·.location)) := h
  rw [distinctLocs, List.map_append, List.map_singleton, firstSeenKeys_append, if_neg h']
  rfl

theorem updateGroup_map_mem {ks : List (Option String)} {f : Option String → SensorAcc}
    {key : Option String} (hnd : ks.Nodup) (hmem : key ∈ ks) (v : ℚ) :
    updateGroup (ks.map fun k => (k, f k)) key v =
      ks.map fun k => (k,
        if k = key then ⟨(f k).sum + v, (f k).count + 1, (f k).readings ++ [v]⟩ else f k) := by
  induction ks with
  | nil => cases hmem
  | cons k ks ih =>
    rw [List.map_cons, List.map_cons, updateGroup]
    by_cases hk : k = key
    · subst hk
      rw [if_pos rfl, if_pos rfl]
      congr 1
      have hnot : k ∉ ks := (List.nodup_cons.mp hnd).1
      apply (List.map_congr_left ?_).symm
      intro x hx
      rw [if_neg (fun hxk : x = k => hnot (by rw [← hxk]; exact hx))]
    · rw [if_neg hk, if_neg hk]
      congr 1
      rcases List.mem_cons.mp hmem with h | h
      · exact absurd h.symm hk
      · exact ih (List.nodup_cons.mp hnd).2 h

theorem updateGroup_map_notMem {ks : List (Option String)} {f : Option String → SensorAcc}
    {key : Option String} (hmem : key ∉ ks) (v : ℚ) :
    updateGroup (ks.map fun k => (k, f k)) key v =
      (ks.map fun k => (k, f k)) ++ [(key, ⟨v, 1, [v]⟩)] := by
  induction ks with
  | nil => rfl
  | cons k ks ih =>
    have hk : k ≠ key := fun h => hmem (h ▸ List.mem_cons_self k ks)
    rw [List.map_cons, updateGroup, if_neg hk, List.cons_append]
    congr 1
    exact ih (fun h => hmem (List.mem_cons_of_mem _ h))

/-- The `grouped` object holds, per first-encountered location, the sum,
count and list of that location's readings. -/
theorem groupByLocation_eq (data : List Reading) :
    groupByLocation data = (distinctLocs data).map fun loc =>
      (loc, (⟨(readingsAt data loc).sum, (readingsAt data loc).length,
        readingsAt data loc⟩ : SensorAcc)) := by
  induction data using List.reverseRecOn with
  | nil => rfl
  | append_singleton data e ih =>
    rw [groupByLocation_append, ih]
    by_cases hmem : e.location ∈ distinctLocs data
    · rw [updateGroup_map_mem (nodup_distinctLocs data) hmem, distinctLocs_append_mem hmem]
      apply List.map_congr_left
      intro k hk
      by_cases hke : k = e.location
      · subst hke
        rw [if_pos rfl]
        simp [readingsAt_append]
      · have hek : e.location ≠ k := fun h => hke h.symm
        rw [if_neg hke]
        simp [readingsAt_append, hek]
    · rw [updateGroup_map_notMem hmem, distinctLocs_append_notMem hmem, List.map_append]
      congr 1
      · apply List.map_congr_left
        intro k hk
        have hek : e.location ≠ k := fun h => hmem (h ▸ hk)
        simp [readingsAt_append, hek]
      · have hnil : readingsAt data e.location = [] :=
          readingsAt_of_notMem (fun h => hmem ((mem_distinctLocs data e.location).mpr h))
        simp [readingsAt_append, hnil]

/-- The `averages` object maps each distinct location to the mean of its
readings. -/
theorem sensorAverages_eq (data : List Reading) :
    sensorAverages data = (distinctLocs data).map fun loc =>
      (loc, specMean (readingsAt data loc)) := by
  rw [sensorAverages, groupByLocation_eq, List.map_map]
  rfl

theorem listSum_eq (l : List ℚ) : listSum l = l.sum := by
  have aux : ∀ (l : List ℚ) (a : ℚ), l.foldl (· + ·) a = a + l.sum := by
    intro l
    induction l with
    | nil => simp
    | cons x xs ih => intro a; simp [ih, add_assoc]
  simpa using aux l 0

theorem maxOf_spec (l : List ℚ) (h : l ≠ []) :
    maxOf l ∈ l ∧ ∀ v ∈ l, v ≤ maxOf l := by
  have aux : ∀ (xs : List ℚ) (x : ℚ),
      xs.foldl max x ∈ x :: xs ∧ x ≤ xs.foldl max x ∧ ∀ v ∈ xs, v ≤ xs.foldl max x := by
    intro xs
    induction xs with
    | nil => exact fun x => ⟨List.mem_singleton_self x, le_refl x, by simp⟩
    | cons y ys ih =>
      intro x
      obtain ⟨hmem, hle, hall⟩ := ih (max x y)
      refine ⟨?_, ?_, ?_⟩
      · rw [List.foldl_cons]
        rcases List.mem_cons.mp hmem with hh | hh
        · rcases max_choice x y with hc | hc <;> rw [hh, hc] <;> simp
        · exact List.mem_cons_of_mem _ (List.mem_cons_of_mem _ hh)
      · exact le_trans (le_max_left x y) hle
      · intro v hv
        rcases List.mem_cons.mp hv with rfl | hv
        · exact le_trans (le_max_right x v) hle
        · exact hall v hv
  match l, h with
  | x :: xs, _ =>
    obtain ⟨hmem, _, hall⟩ := aux xs x
    exact ⟨hmem, fun v hv => by
      rcases List.mem_cons.mp hv with rfl | hv
      · exact (aux xs v).2.1
      · exact hall v hv⟩

theorem minOf_spec (l : List ℚ) (h : l ≠ []) :
    minOf l ∈ l ∧ ∀ v ∈ l, minOf l ≤ v := by
  have aux : ∀ (xs : List ℚ) (x : ℚ),
      xs.foldl min x ∈ x :: xs ∧ xs.foldl min x ≤ x ∧ ∀ v ∈ xs, xs.foldl min x ≤ v := by
    intro xs
    induction xs with
    | nil => exact fun x => ⟨List.mem_singleton_self x, le_refl x, by simp⟩
    | cons y ys ih =>
      intro x
      obtain ⟨hmem, hle, hall⟩ := ih (min x y)
      refine ⟨?_, ?_, ?_⟩
      · rw [List.foldl_cons]
        rcases List.mem_cons.mp hmem with hh | hh
        · rcases min_choice x y with hc | hc <;> rw [hh, hc] <;> simp
        · exact List.mem_cons_of_mem _ (List.mem_cons_of_mem _ hh)
      · exact le_trans hle (min_le_left x y)
      · intro v hv
        rcases List.mem_cons.mp hv with rfl | hv
        · exact le_trans hle (min_le_right x v)
        · exact hall v hv
  match l, h with
  | x :: xs, _ =>
    obtain ⟨hmem, _, hall⟩ := aux xs x
    exact ⟨hmem, fun v hv => by
      rcases List.mem_cons.mp hv with rfl | hv
      · exact (aux xs v).2.1
      · exact hall v hv⟩

/-- The overall-average step equals the unweighted mean of the
per-distinct-location means. -/
theorem overallAvg_formula (data : List Reading) :
    (if 0 < ((sensorAverages data).map Prod.snd).length then
      listSum ((sensorAverages data).map Prod.snd) /
        (((sensorAverages data).map Prod.snd).length : ℚ)
    else 0) =
      specMean ((distinctLocs data).map fun loc => specMean (readingsAt data loc)) := by
  rw [sensorAverages_eq, List.map_map]
  by_cases h : 0 < (((distinctLocs data).map
      (Prod.snd ∘ fun loc => (loc, specMean (readingsAt data loc))))).length
  · rw [if_pos h, listSum_eq]
    rfl
  · rw [if_neg h]
    have hlen0 := Nat.eq_zero_of_not_pos h
    rw [List.length_eq_zero] at hlen0
    have hnil : distinctLocs data = [] := List.map_eq_nil_iff.mp hlen0
    rw [hnil]
    simp [specMean]

/-- C3: per group, the overall average is the unweighted mean of the
per-distinct-location means, the peak is the maximum raw reading and the
bottom the minimum raw reading; on the two-reading March 2024 example the
hot group has 1 sensor, average 40, median 40, peak 50, bottom 30 and the
cold group is all zero. -/
theorem monthlyStat_group_stats (allData : List Reading) (m : ℤ) :
    ((analyzeMonth allData m).overallHotAvg =
      specMean ((analyzeMonth allData m).hotSensors.map fun loc =>
        specMean (readingsAt (analyzeMonth allData m).hotData loc))) ∧
    ((analyzeMonth allData m).overallColdAvg =
      specMean ((analyzeMonth allData m).coldSensors.map fun loc =>
        specMean (readingsAt (analyzeMonth allData m).coldData loc))) ∧
    ((analyzeMonth allData m).hotData ≠ [] →
      (analyzeMonth allData m).hotPeak ∈ (analyzeMonth allData m).hotData.map (·.reading) ∧
      ∀ v ∈ (analyzeMonth allData m).hotData.map (·.reading),
        v ≤ (analyzeMonth allData m).hotPeak) ∧
    ((analyzeMonth allData m).hotData ≠ [] →
      (analyzeMonth allData m).hotBottom ∈ (analyzeMonth allData m).hotData.map (·.reading) ∧
      ∀ v ∈ (analyzeMonth allData m).hotData.map (·.reading),
        (analyzeMonth allData m).hotBottom ≤ v) ∧
    ((analyzeMonth allData m).coldData ≠ [] →
      (analyzeMonth allData m).coldPeak ∈ (analyzeMonth allData m).coldData.map (·.reading) ∧
      ∀ v ∈ (analyzeMonth allData m).coldData.map (·.reading),
        v ≤ (analyzeMonth allData m).coldPeak) ∧
    ((analyzeMonth allData m).coldData ≠ [] →
      (analyzeMonth allData m).coldBottom ∈ (analyzeMonth allData m).coldData.map (·.reading) ∧
      ∀ v ∈ (analyzeMonth allData m).coldData.map (·.reading),
        (analyzeMonth allData m).coldBottom ≤ v) ∧
    runDH3TempComparison march2024 [exReading1, exReading2] 1 =
      [analyzeMonth [exReading1, exReading2] march2024] ∧
    analyzeMonth [exReading1, exReading2] march2024 =
      ⟨march2024, [exReading1, exReading2], [], [some "dh3-up"], [],
        40, 0, 50, 30, 0, 0, 40, 0, 2⟩ := by
  have peakOf : ∀ rs : List Reading, rs ≠ [] →
      (if 0 < (rs.map (·.reading)).length then maxOf (rs.map (·.reading)) else 0) ∈
        rs.map (·.reading) ∧
      ∀ v ∈ rs.map (·.reading),
        v ≤ (if 0 < (rs.map (·.reading)).length then maxOf (rs.map (·.reading)) else 0) := by
    intro rs hne
    have hlen : 0 < (rs.map (·.reading)).length := by
      rw [List.length_map, List.length_pos]
      exact hne
    rw [if_pos hlen]
    exact maxOf_spec _ (List.length_pos.mp hlen)
  have bottomOf : ∀ rs : List Reading, rs ≠ [] →
      (if 0 < (rs.map (·.reading)).length then minOf (rs.map (·.reading)) else 0) ∈
        rs.map (·.reading) ∧
      ∀ v ∈ rs.map (·.reading),
        (if 0 < (rs.map (·.reading)).length then minOf (rs.map (·.reading)) else 0) ≤ v := by
    intro rs hne
    have hlen : 0 < (rs.map (·.reading)).length := by
      rw [List.length_map, List.length_pos]
      exact hne
    rw [if_pos hlen]
    exact minOf_spec _ (List.length_pos.mp hlen)
  refine ⟨overallAvg_formula (hotOf (monthData allData m)),
    overallAvg_formula (coldOf (monthData allData m)),
    fun h => peakOf (hotOf (monthData allData m)) h,
    fun h => bottomOf (hotOf (monthData allData m)) h,
    fun h => peakOf (coldOf (monthData allData m)) h,
    fun h => bottomOf (coldOf (monthData allData m)) h,
    ?_, ?_⟩
  · simp [runDH3TempComparison, List.range_succ]
  · norm_num [analyzeMonth, monthData, inMonth, instLE, monthStart, monthEnd, monthMs,
      monthDays, march2024, exReading1, exReading2, hotOf, coldOf, endsUp, endsDown,
      strEndsWith, sensorAverages, groupByLocation, updateGroup, listSum, distinctLocs,
      firstSeenKeys, Int.fdiv, Int.fmod, isLeapYear, List.isSuffixOf, List.isPrefixOf,
      maxOf, minOf, calculateMedian, List.insertionSort, List.orderedInsert]

/-- Witness for C3: the peak characterization discharged on the concrete
March 2024 example. -/
theorem monthlyStat_group_stats_witness :
    (analyzeMonth [exReading1, exReading2] march2024).hotData ≠ [] ∧
    ((analyzeMonth [exReading1, exReading2] march2024).hotPeak ∈
      (analyzeMonth [exReading1, exReading2] march2024).hotData.map (·.reading) ∧
    ∀ v ∈ (analyzeMonth [exReading1, exReading2] march2024).hotData.map (·.reading),
      v ≤ (analyzeMonth [exReading1, exReading2] march2024).hotPeak) := by
  have hne : (analyzeMonth [exReading1, exReading2] march2024).hotData ≠ [] := by
    decide
  exact ⟨hne, (monthlyStat_group_stats [exReading1, exReading2] march2024).2.2.1 hne⟩

/-! ### Characterization of the bucket grouping -/

theorem groupEvents_append {κ : Type} [DecidableEq κ] (evs : List (κ × String × ℚ))
    (e : κ × String × ℚ) :
    groupEvents (evs ++ [e]) = addToBuckets (groupEvents evs) e.1 e.2.1 e.2.2 := by
  simp [groupEvents, List.foldl_append]

theorem lookupVal_setVal (vals : List (String × ℚ)) (k loc : String) (v : ℚ) :
    lookupVal (setVal vals k v) loc = if k = loc then some v else lookupVal vals loc := by
  induction vals with
  | nil =>
    by_cases h : k = loc <;> simp [setVal, lookupVal, h]
  | cons p rest ih =>
    obtain ⟨k', v'⟩ := p
    by_cases hk : k' = k
    · subst hk
      by_cases hl : k' = loc <;> simp [setVal, lookupVal, hl]
    · by_cases hl : k' = loc
      · subst hl
        have : k ≠ k' := fun h => hk h.symm
        simp [setVal, lookupVal, hk, this]
      · simp [setVal, lookupVal, hk, hl, ih]

theorem addToBuckets_keys {κ : Type} [DecidableEq κ] (bs : List (Bucket κ)) (t : κ)
    (loc : String) (v : ℚ) :
    (addToBuckets bs t loc v).map (·.created) =
      if t ∈ bs.map (·.created) then bs.map (·.created) else bs.map (·.created) ++ [t] := by
  induction bs with
  | nil => simp [addToBuckets]
  | cons c cs ih =>
    by_cases hc : c.created = t
    · simp [addToBuckets, hc]
    · have hct : t ≠ c.created := fun h => hc h.symm
      by_cases hmem : t ∈ cs.map (·.created)
      · simp [addToBuckets, hc, ih, hmem, hct]
      · simp [addToBuckets, hc, ih, hmem, hct]

theorem addToBuckets_cases {κ : Type} [DecidableEq κ] {bs : List (Bucket κ)}
    (hnd : (bs.map (·.created)).Nodup) (t : κ) (loc : String) (v : ℚ) :
    ∀ b ∈ addToBuckets bs t loc v,
      (b ∈ bs ∧ b.created ≠ t) ∨
      (∃ b₀, b₀ ∈ bs ∧ b₀.created = t ∧ b = ⟨t, setVal b₀.vals loc v⟩) ∨
      (t ∉ bs.map (·.created) ∧ b = ⟨t, [(loc, v)]⟩) := by
  induction bs with
  | nil =>
    intro b hb
    rw [addToBuckets, List.mem_singleton] at hb
    exact Or.inr (Or.inr ⟨by simp, hb⟩)
  | cons c cs ih =>
    intro b hb
    rw [List.map_cons, List.nodup_cons] at hnd
    by_cases hc : c.created = t
    · rw [addToBuckets, if_pos hc] at hb
      rcases List.mem_cons.mp hb with rfl | hb
      · exact Or.inr (Or.inl ⟨c, List.mem_cons_self c cs, hc, by rw [hc]⟩)
      · refine Or.inl ⟨List.mem_cons_of_mem c hb, ?_⟩
        intro hbt
        exact hnd.1 (hc ▸ hbt ▸ List.mem_map_of_mem (·.created) hb)
    · rw [addToBuckets, if_neg hc] at hb
      rcases List.mem_cons.mp hb with rfl | hb
      · exact Or.inl ⟨List.mem_cons_self b cs, hc⟩
      · rcases ih hnd.2 b hb with ⟨h₁, h₂⟩ | ⟨b₀, h₁, h₂, h₃⟩ | ⟨h₁, h₂⟩
        · exact Or.inl ⟨List.mem_cons_of_mem c h₁, h₂⟩
        · exact Or.inr (Or.inl ⟨b₀, List.mem_cons_of_mem c h₁, h₂, h₃⟩)
        · refine Or.inr (Or.inr ⟨?_, h₂⟩)
          rw [List.map_cons, List.mem_cons]
          rintro (h | h)
          · exact hc h.symm
          · exact h₁ h

/-- The bucket list of `groupEvents`: one bucket per distinct key in
first-encounter order, and each bucket maps each location to the value of
the last event with that (key, location), when one exists. -/
theorem groupEvents_char {κ : Type} [DecidableEq κ] (evs : List (κ × String × ℚ)) :
    (groupEvents evs).map (·.created) = firstSeenKeys (evs.map (·.1)) ∧
    ∀ b ∈ groupEvents evs, ∀ loc : String,
      lookupVal b.vals loc =
        ((evs.filter fun e => decide (e.1 = b.created) && decide (e.2.1 = loc)).map
          (fun e => e.2.2)).getLast? := by
  induction evs using List.reverseRecOn with
  | nil => exact ⟨rfl, by intro b hb; cases hb⟩
  | append_singleton evs e ih =>
    obtain ⟨ihk, ihl⟩ := ih
    have hnd : ((groupEvents evs).map (·.created)).Nodup := by
      rw [ihk]; exact nodup_firstSeenKeys _
    have hkeys : (groupEvents (evs ++ [e])).map (·.created) =
        firstSeenKeys ((evs ++ [e]).map (·.1)) := by
      rw [groupEvents_append, addToBuckets_keys, List.map_append, List.map_singleton,
        firstSeenKeys_append, ihk]
    refine ⟨hkeys, ?_⟩
    intro b hb loc
    rw [groupEvents_append] at hb
    rcases addToBuckets_cases hnd e.1 e.2.1 e.2.2 b hb with
      ⟨h₁, h₂⟩ | ⟨b₀, h₁, h₂, h₃⟩ | ⟨h₁, h₂⟩
    · rw [List.filter_append, List.map_append]
      have hf : List.filter (fun ev => decide (ev.1 = b.created) && decide (ev.2.1 = loc))
          [e] = [] := by
        simp only [List.filter_cons, List.filter_nil]
        rw [if_neg]
        simp only [Bool.and_eq_true, decide_eq_true_eq, not_and]
        intro h
        exact absurd h.symm h₂
      rw [hf, List.map_nil, List.append_nil]
      exact ihl b h₁ loc
    · subst h₃
      rw [List.filter_append]
      by_cases hloc : e.2.1 = loc
      · have hf : List.filter (fun ev => decide (ev.1 = e.1) && decide (ev.2.1 = loc))
            [e] = [e] := by
          simp [List.filter_cons, hloc]
        simp only []
        rw [hf, List.map_append, List.map_singleton, List.getLast?_concat]
        rw [lookupVal_setVal, if_pos hloc]
      · have hf : List.filter (fun ev => decide (ev.1 = e.1) && decide (ev.2.1 = loc))
            [e] = [] := by
          simp [List.filter_cons, hloc]
        rw [hf, List.append_nil]
        rw [lookupVal_setVal, if_neg hloc]
        have := ihl b₀ h₁ loc
        rw [h₂] at this
        exact this
    · subst h₂
      have hnone : ∀ ev ∈ evs, ¬(ev.1 = e.1) := by
        intro ev hev hcreq
        apply h₁
        rw [ihk, mem_firstSeenKeys]
        exact hcreq ▸ List.mem_map_of_mem (·.1) hev
      have hf : List.filter (fun ev => decide (ev.1 = e.1) && decide (ev.2.1 = loc))
          evs = [] := by
        rw [List.filter_eq_nil_iff]
        intro ev hev
        simp only [Bool.and_eq_true, decide_eq_true_eq, not_and]
        intro h
        exact absurd h (hnone ev hev)
      rw [List.filter_append, hf, List.nil_append]
      by_cases hloc : e.2.1 = loc
      · have hfe : List.filter (fun ev => decide (ev.1 = e.1) && decide (ev.2.1 = loc))
            [e] = [e] := by
          simp [List.filter_cons, hloc]
        rw [hfe, List.map_singleton]
        simp [lookupVal, hloc]
      · have hfe : List.filter (fun ev => decide (ev.1 = e.1) && decide (ev.2.1 = loc))
            [e] = [] := by
          simp [List.filter_cons, hloc]
        rw [hfe, List.map_nil]
        simp [lookupVal, hloc]

/-- C8: power-mode grouping produces one bucket per distinct exact
timestamp, in first-encounter order; each bucket maps a location to the
value of the last reading with that (timestamp, location) in iteration
order, and holds a location exactly when some reading reported it at that
timestamp. -/
theorem powerGrouping_spec (data : List PowerReading) :
    (groupPower data).map (·.created) = firstSeenKeys (data.map (·.created)) ∧
    ∀ b ∈ groupPower data, ∀ loc : String,
      lookupVal b.vals loc =
        ((data.filter fun e => decide (e.created = b.created) && decide (e.location = loc)).map
          (·.reading)).getLast? ∧
      (lookupVal b.vals loc = none ↔
        ∀ e ∈ data, ¬(e.created = b.created ∧ e.location = loc)) := by
  obtain ⟨hkeys, hlook⟩ :=
    groupEvents_char (data.map fun e => (e.created, e.location, e.reading))
  have hkeys' : (groupPower data).map (·.created) = firstSeenKeys (data.map (·.created)) := by
    rw [groupPower, hkeys, List.map_map]
    rfl
  refine ⟨hkeys', ?_⟩
  intro b hb loc
  have hmain : lookupVal b.vals loc =
      ((data.filter fun e => decide (e.created = b.created) && decide (e.location = loc)).map
        (·.reading)).getLast? := by
    rw [groupPower] at hb
    rw [hlook b hb loc, List.filter_map, List.map_map]
    rfl
  refine ⟨hmain, ?_⟩
  rw [hmain, List.getLast?_eq_none_iff, List.map_eq_nil_iff, List.filter_eq_nil_iff]
  constructor
  · intro h e he
    have hne := h e he
    simp only [Bool.and_eq_true, decide_eq_true_eq, not_and] at hne
    rintro ⟨h₁, h₂⟩
    exact hne h₁ h₂
  · intro h e he
    simp only [Bool.and_eq_true, decide_eq_true_eq, not_and]
    intro h₁ h₂
    exact h e he ⟨h₁, h₂⟩

/-- Witness for C8 on a concrete stream with a duplicate
(timestamp, location): last write wins. -/
theorem powerGrouping_spec_witness :
    (⟨"t1", [("l1", 2)]⟩ : Bucket String) ∈ groupPower powerSample ∧
    lookupVal (⟨"t1", [("l1", 2)]⟩ : Bucket String).vals "l1" =
      ((powerSample.filter fun e =>
        decide (e.created = (⟨"t1", [("l1", 2)]⟩ : Bucket String).created) &&
          decide (e.location = "l1")).map (·.reading)).getLast? := by
  have hb : (⟨"t1", [("l1", 2)]⟩ : Bucket String) ∈ groupPower powerSample := by decide
  exact ⟨hb, ((powerGrouping_spec powerSample).2 _ hb "l1").1⟩

/-! ### Characterization of the temperature averaging pass -/

theorem averagePoint_foldl (sorted : List (Bucket ℤ)) (t : ℤ) :
    ∀ (cfg : List String) (acc : List (String × ℚ)),
      cfg.foldl (fun acc loc =>
        let vals := windowVals sorted t loc
        if 0 < vals.length then acc ++ [(loc, listSum vals / (vals.length : ℚ))] else acc) acc =
      acc ++ (cfg.filter fun loc => 0 < (windowVals sorted t loc).length).map
        (fun loc => (loc, listSum (windowVals sorted t loc) /
          ((windowVals sorted t loc).length : ℚ))) := by
  intro cfg
  induction cfg with
  | nil => simp
  | cons l cfg ih =>
    intro acc
    rw [List.foldl_cons, List.filter_cons, ih]
    simp only [decide_eq_true_eq]
    by_cases h : 0 < (windowVals sorted t l).length
    · rw [if_pos h, if_pos h, List.map_cons]
      simp [List.append_assoc]
    · rw [if_neg h, if_neg h]

theorem lookupVal_map_keys (ks : List String) (g : String → ℚ) (loc : String) :
    lookupVal (ks.map fun k => (k, g k)) loc =
      if loc ∈ ks then some (g loc) else none := by
  induction ks with
  | nil => simp [lookupVal]
  | cons k ks ih =>
    simp only [List.map_cons, lookupVal]
    by_cases hk : k = loc
    · subst hk
      rw [if_pos rfl, if_pos (List.mem_cons_self _ _)]
    · rw [if_neg hk, ih]
      by_cases hmem : loc ∈ ks
      · rw [if_pos hmem, if_pos (List.mem_cons_of_mem _ hmem)]
      · rw [if_neg hmem, if_neg]
        intro h
        rcases List.mem_cons.mp h with h | h
        · exact hk h.symm
        · exact hmem h

/-- Lookup in one averaged point: the mean of the window values when the
location is configured and its window is non-empty, absent otherwise. -/
theorem lookupVal_averagePoint (sorted : List (Bucket ℤ)) (cfg : List String)
    (b : Bucket ℤ) (loc : String) :
    lookupVal (averagePoint sorted cfg b).vals loc =
      if loc ∈ cfg ∧ 0 < (windowVals sorted b.created loc).length
      then some (listSum (windowVals sorted b.created loc) /
        ((windowVals sorted b.created loc).length : ℚ))
      else none := by
  rw [averagePoint]
  simp only []
  rw [averagePoint_foldl, List.nil_append, lookupVal_map_keys]
  by_cases h : loc ∈ cfg ∧ 0 < (windowVals sorted b.created loc).length
  · rw [if_pos h, if_pos (List.mem_filter.mpr ⟨h.1, by simpa using h.2⟩)]
  · rw [if_neg h, if_neg]
    intro hmem
    obtain ⟨h₁, h₂⟩ := List.mem_filter.mp hmem
    exact h ⟨h₁, by simpa using h₂⟩

theorem groupTemp_keys (data : List TempReading) :
    (groupTemp data).map (·.created) =
      firstSeenKeys (data.map fun e => normalizeTime e.created) := by
  have h := (groupEvents_char (data.map fun e =>
    (normalizeTime e.created, e.location, e.reading))).1
  rw [groupTemp, h, List.map_map]
  rfl

theorem groupTemp_lookup (data : List TempReading) :
    ∀ b ∈ groupTemp data, ∀ loc : String,
      lookupVal b.vals loc =
        ((data.filter fun e => decide (normalizeTime e.created = b.created) &&
          decide (e.location = loc)).map (·.reading)).getLast? := by
  intro b hb loc
  rw [groupTemp] at hb
  have h := (groupEvents_char (data.map fun e =>
    (normalizeTime e.created, e.location, e.reading))).2 b hb loc
  rw [h, List.filter_map, List.map_map]
  rfl

theorem mem_sortTempBuckets {bs : List (Bucket ℤ)} {b : Bucket ℤ} :
    b ∈ sortTempBuckets bs ↔ b ∈ bs :=
  (List.perm_insertionSort bucketLE bs).mem_iff

theorem sortTempBuckets_keys_nodup (data : List TempReading) :
    ((sortTempBuckets (groupTemp data)).map (·.created)).Nodup := by
  have hperm : List.Perm ((sortTempBuckets (groupTemp data)).map (·.created))
      ((groupTemp data).map (·.created)) :=
    (List.perm_insertionSort bucketLE (groupTemp data)).map (fun b => b.created)
  rw [hperm.nodup_iff, groupTemp_keys]
  exact nodup_firstSeenKeys _

theorem sortTempBuckets_sorted (bs : List (Bucket ℤ)) :
    ((sortTempBuckets bs).map (·.created)).Sorted (· ≤ ·) :=
  List.Pairwise.map (fun b : Bucket ℤ => b.created) (fun _ _ h => h)
    (List.sorted_insertionSort bucketLE bs)

theorem groupTemp_lookup_none {data : List TempReading} {loc : String}
    (h : loc ∉ data.map (·.location)) :
    ∀ b ∈ groupTemp data, lookupVal b.vals loc = none := by
  intro b hb
  rw [groupTemp_lookup data b hb loc, List.getLast?_eq_none_iff, List.map_eq_nil_iff,
    List.filter_eq_nil_iff]
  intro e he
  simp only [Bool.and_eq_true, decide_eq_true_eq, not_and]
  intro _ hl
  apply h
  rw [← hl]
  exact List.mem_map_of_mem (·.location) he

theorem windowVals_of_absent {data : List TempReading} {loc : String}
    (h : loc ∉ data.map (·.location)) (t : ℤ) :
    windowVals (sortTempBuckets (groupTemp data)) t loc = [] := by
  rw [windowVals, List.filterMap_eq_nil_iff]
  intro b hb
  exact groupTemp_lookup_none h b (mem_sortTempBuckets.mp (List.mem_of_mem_filter hb))

theorem filterMap_if_created (nt : ℤ) (v : ℚ) (l : List (Bucket ℤ)) :
    List.filterMap (fun c => if c.created = nt then some v else none) l =
      List.replicate (l.countP fun c => decide (c.created = nt)) v := by
  induction l with
  | nil => rfl
  | cons c cs ih =>
    by_cases h : c.created = nt
    · simp [List.filterMap_cons, List.countP_cons, h, ih, List.replicate_succ]
    · simp [List.filterMap_cons, List.countP_cons, h, ih]

/-- C2 counterexample: two samples of one location exactly 30 minutes
apart.  The bucket at t = 30 min averages over the closed window
[t − 30 min, t] — the source filter uses `>=` — so it includes the sample
at the left endpoint and yields 5, not the 10 demanded by the half-open
window `(t − 30 min, t]` of the claim. -/
theorem temperature_window_cx :
    (temperatureSeries tempCx).map (·.created) = [0, 1800000] ∧
    lookupVal (((temperatureSeries tempCx).getD 1 ⟨0, []⟩).vals) "a" = some 5 ∧
    lookupVal (((temperatureSeries tempCx).getD 1 ⟨0, []⟩).vals) "a" ≠ some 10 := by
  refine ⟨?_, ?_, ?_⟩ <;>
    norm_num [temperatureSeries, tempCx, groupTemp, groupEvents, addToBuckets, normalizeTime,
      Int.fdiv, sortTempBuckets, List.insertionSort, List.orderedInsert, bucketLE, cfgLocs,
      firstSeenKeys, averagePoint, windowVals, setVal, lookupVal, listSum,
      List.filterMap_cons]

/-- C2 amended: in temperature mode the output is sorted ascending by
instant, output instants are the minute-truncated input timestamps, and a
bucket maps each location to the arithmetic mean of that location's values
over the buckets whose instant lies in the closed window
[instant − 30 min, instant] (the source includes the left endpoint),
omitting locations with no value in the window; a location with a single
reading at time T maps, at the bucket for T, to exactly that reading. -/
theorem temperatureSeries_spec (data : List TempReading) :
    ((temperatureSeries data).map (·.created)).Sorted (· ≤ ·) ∧
    (temperatureSeries data).map (·.created) =
      (sortTempBuckets (groupTemp data)).map (·.created) ∧
    (∀ b ∈ temperatureSeries data, ∃ e ∈ data, b.created = normalizeTime e.created) ∧
    (∀ b ∈ temperatureSeries data, ∀ loc : String,
      lookupVal b.vals loc =
        if 0 < (windowVals (sortTempBuckets (groupTemp data)) b.created loc).length
        then some (specMean (windowVals (sortTempBuckets (groupTemp data)) b.created loc))
        else none) ∧
    (∀ (loc : String) (t : ℤ) (v : ℚ),
      (data.filter fun e => decide (e.location = loc)) = [⟨t, loc, v⟩] →
      ∃ b ∈ temperatureSeries data,
        b.created = normalizeTime t ∧ lookupVal b.vals loc = some v) := by
  have hseries : temperatureSeries data =
      (sortTempBuckets (groupTemp data)).map
        (averagePoint (sortTempBuckets (groupTemp data)) (cfgLocs data)) := rfl
  have hmapc : (temperatureSeries data).map (·.created) =
      (sortTempBuckets (groupTemp data)).map (·.created) := by
    rw [hseries, List.map_map]
    rfl
  have hlookup : ∀ b ∈ temperatureSeries data, ∀ loc : String,
      lookupVal b.vals loc =
        if 0 < (windowVals (sortTempBuckets (groupTemp data)) b.created loc).length
        then some (specMean (windowVals (sortTempBuckets (groupTemp data)) b.created loc))
        else none := by
    intro b hb loc
    rw [hseries] at hb
    obtain ⟨b₀, hb₀, rfl⟩ := List.mem_map.mp hb
    rw [lookupVal_averagePoint,
      show (averagePoint (sortTempBuckets (groupTemp data)) (cfgLocs data) b₀).created =
        b₀.created from rfl]
    by_cases hcfg : loc ∈ cfgLocs data
    · by_cases hlen : 0 <
        (windowVals (sortTempBuckets (groupTemp data)) b₀.created loc).length
      · rw [if_pos ⟨hcfg, hlen⟩, if_pos hlen, listSum_eq]
        rfl
      · rw [if_neg (fun hc => hlen hc.2), if_neg hlen]
    · have habs : loc ∉ data.map (·.location) := by
        intro h
        exact hcfg ((mem_firstSeenKeys _ _).mpr h)
      have hwv : windowVals (sortTempBuckets (groupTemp data)) b₀.created loc = [] :=
        windowVals_of_absent habs _
      rw [if_neg (fun hc => hcfg hc.1), hwv]
      simp
  refine ⟨?_, hmapc, ?_, hlookup, ?_⟩
  · rw [hmapc]
    exact sortTempBuckets_sorted _
  · intro b hb
    rw [hseries] at hb
    obtain ⟨b₀, hb₀, rfl⟩ := List.mem_map.mp hb
    have hkey : b₀.created ∈ (groupTemp data).map (·.created) :=
      List.mem_map_of_mem (·.created) (mem_sortTempBuckets.mp hb₀)
    rw [groupTemp_keys, mem_firstSeenKeys] at hkey
    obtain ⟨e, he, heq⟩ := List.mem_map.mp hkey
    exact ⟨e, he, heq.symm⟩
  · intro loc t v hfilter
    have hmem_e : (⟨t, loc, v⟩ : TempReading) ∈ data := by
      have hm : (⟨t, loc, v⟩ : TempReading) ∈
          data.filter fun e => decide (e.location = loc) := by
        rw [hfilter]
        exact List.mem_singleton_self _
      exact List.mem_of_mem_filter hm
    have hloc_mem : loc ∈ data.map (·.location) :=
      List.mem_map_of_mem (·.location) hmem_e
    have hkey : normalizeTime t ∈
        (sortTempBuckets (groupTemp data)).map (·.created) := by
      have hperm : List.Perm ((sortTempBuckets (groupTemp data)).map (·.created))
          ((groupTemp data).map (·.created)) :=
        (List.perm_insertionSort bucketLE (groupTemp data)).map (fun b => b.created)
      rw [hperm.mem_iff, groupTemp_keys, mem_firstSeenKeys]
      exact List.mem_map_of_mem (fun e => normalizeTime e.created) hmem_e
    obtain ⟨b₀, hb₀, hbc⟩ := List.mem_map.mp hkey
    have hlookups : ∀ c ∈ sortTempBuckets (groupTemp data),
        lookupVal c.vals loc = if c.created = normalizeTime t then some v else none := by
      intro c hc
      rw [groupTemp_lookup data c (mem_sortTempBuckets.mp hc) loc]
      have hcomm : data.filter (fun e => decide (normalizeTime e.created = c.created) &&
          decide (e.location = loc)) =
          (data.filter fun e => decide (e.location = loc)).filter
            (fun e => decide (normalizeTime e.created = c.created)) := by
        rw [List.filter_filter]
      rw [hcomm, hfilter]
      by_cases hct : c.created = normalizeTime t
      · rw [if_pos hct]
        simp [List.filter_cons, hct.symm]
      · rw [if_neg hct]
        have : ¬(normalizeTime t = c.created) := fun h => hct h.symm
        simp [List.filter_cons, this]
    have hwv : windowVals (sortTempBuckets (groupTemp data)) (normalizeTime t) loc =
        [v] := by
      rw [windowVals]
      rw [List.filterMap_congr (fun c hc =>
        hlookups c (List.mem_of_mem_filter hc))]
      rw [filterMap_if_created]
      have hcount : ((sortTempBuckets (groupTemp data)).filter fun p =>
          decide (normalizeTime t - 1800000 ≤ p.created) &&
            decide (p.created ≤ normalizeTime t)).countP
            (fun c => decide (c.created = normalizeTime t)) = 1 := by
        rw [List.countP_filter]
        have hsame : ∀ c ∈ sortTempBuckets (groupTemp data),
            ((decide (c.created = normalizeTime t) &&
              (decide (normalizeTime t - 1800000 ≤ c.created) &&
                decide (c.created ≤ normalizeTime t))) = true) ↔
            ((decide (c.created = normalizeTime t)) = true) := by
          intro c _
          constructor
          · intro h
            simp only [Bool.and_eq_true] at h
            simp [h.1]
          · intro h
            simp only [decide_eq_true_eq] at h
            simp [h]
        rw [List.countP_congr hsame]
        have hcc : (sortTempBuckets (groupTemp data)).countP
            (fun c => decide (c.created = normalizeTime t)) =
            ((sortTempBuckets (groupTemp data)).map (·.created)).count
              (normalizeTime t) := by
          rw [List.count, List.countP_map]
          apply List.countP_congr
          intro c _
          constructor
          · intro h
            simp only [decide_eq_true_eq] at h
            simp [Function.comp, h]
          · intro h
            simp only [Function.comp] at h
            simp only [decide_eq_true_eq]
            exact eq_of_beq h
        rw [hcc]
        exact List.count_eq_one_of_mem (sortTempBuckets_keys_nodup data) hkey
      rw [hcount]
      rfl
    refine ⟨averagePoint (sortTempBuckets (groupTemp data)) (cfgLocs data) b₀,
      ?_, ?_, ?_⟩
    · rw [hseries]
      exact List.mem_map_of_mem _ hb₀
    · exact hbc
    · rw [lookupVal_averagePoint]
      have hcb : (b₀.created : ℤ) = normalizeTime t := hbc
      rw [hcb, hwv]
      rw [if_pos ⟨(mem_firstSeenKeys _ _).mpr hloc_mem, by norm_num⟩]
      norm_num [listSum]

/-- Witness for C2's single-reading clause on a one-sample stream. -/
theorem temperatureSeries_spec_witness :
    (([⟨0, "a", 7⟩] : List TempReading).filter fun e => decide (e.location = "a")) =
      [⟨0, "a", 7⟩] ∧
    ∃ b ∈ temperatureSeries [⟨0, "a", 7⟩],
      b.created = normalizeTime 0 ∧ lookupVal b.vals "a" = some 7 := by
  have hf : (([⟨0, "a", 7⟩] : List TempReading).filter fun e =>
      decide (e.location = "a")) = [⟨0, "a", 7⟩] := by decide
  exact ⟨hf, (temperatureSeries_spec [⟨0, "a", 7⟩]).2.2.2.2 "a" 0 7 hf⟩

end DCGPU
